import Mathlib

/-!
Verification of the genny generic-code generator (package `parse`).

Go strings are modeled as lists of characters (inputs of interest are
ASCII, where Go's byte indexing and `unicode` classification agree with
`Char` operations on `List Char`).  Each definition is a direct
translation of the corresponding function of `parse.go`; the external
collaborators (the Go structural parser `go/parser`, whose result is
passed in as data, and the import normalizer `imports.Process`, modeled
as the identity) are outside the repository and outside the spec's core.
-/

set_option maxRecDepth 100000

namespace Genny

/-- Go strings as lists of characters. -/
abbrev GoStr := List Char

/-- Characters of a Lean string literal, used to write concrete Go strings. -/
def chars (s : String) : GoStr := s.data

/-- Whether the first list is a prefix of the second (Boolean). -/
def goPrefOf : GoStr → GoStr → Bool
  | [], _ => true
  | _ :: _, [] => false
  | a :: t, b :: s => a == b && goPrefOf t s

/-- Go `strings.Index`: index of the first occurrence of `t` in `s`, if any. -/
def goIndex (s t : GoStr) : Option Nat :=
  if goPrefOf t s then some 0
  else
    match s with
    | [] => none
    | _ :: s' => (goIndex s' t).map (· + 1)

/-- Go `strings.Contains`. -/
def goContains (s t : GoStr) : Bool := (goIndex s t).isSome

/-- Go `strings.HasPrefix s p` / `bytes.HasPrefix`. -/
def goHasPref (s p : GoStr) : Bool := goPrefOf p s

/-- Go `strings.HasSuffix` / `bytes.HasSuffix`. -/
def goHasSuffix (s p : GoStr) : Bool := goPrefOf p.reverse s.reverse

/-- Go `strings.Replace(s, t, r, 1)`: replace the first occurrence of `t`. -/
def goReplace1 (s t r : GoStr) : GoStr :=
  match goIndex s t with
  | none => s
  | some i => s.take i ++ r ++ s.drop (i + t.length)

/-- Go `unicode.IsSpace` on the ASCII range (the class of `\s` in the regexps). -/
def goIsSpace (c : Char) : Bool :=
  c == ' ' || c == '\t' || c == '\n' || c == '\r' || c == '\x0b' || c == '\x0c'

/-- Accumulator-based splitting of a line into whitespace-delimited fields. -/
def goFieldsAux : GoStr → GoStr → List GoStr
  | acc, [] => if acc.isEmpty then [] else [acc.reverse]
  | acc, c :: s =>
    if goIsSpace c then
      if acc.isEmpty then goFieldsAux [] s else acc.reverse :: goFieldsAux [] s
    else goFieldsAux (c :: acc) s

/-- Go `strings.Fields`. -/
def goFields (s : GoStr) : List GoStr := goFieldsAux [] s

/-- Go `strings.TrimLeft s cutset`. -/
def goTrimLeftC (s : GoStr) (cut : List Char) : GoStr :=
  s.dropWhile (fun c => cut.contains c)

/-- Go `strings.TrimRight s cutset`. -/
def goTrimRightC (s : GoStr) (cut : List Char) : GoStr :=
  (s.reverse.dropWhile (fun c => cut.contains c)).reverse

/-- Go `strings.TrimSpace`. -/
def goTrimSpace (s : GoStr) : GoStr :=
  ((s.dropWhile goIsSpace).reverse.dropWhile goIsSpace).reverse

/-- Concatenation of a list of strings (Go `strings.Join` with empty separator,
and the effect of successive `buf.WriteString` calls). -/
def joinAll (ls : List GoStr) : GoStr := ls.foldr (· ++ ·) []

/-- The source's `line` helper: `fmt.Sprintln(strings.TrimRight(s, "\r\n"))`. -/
def line (s : GoStr) : GoStr := goTrimRightC s ['\r', '\n'] ++ ['\n']

/-- Drop one trailing carriage return, as `bufio.ScanLines` does per line. -/
def dropCR (s : GoStr) : GoStr :=
  if goHasSuffix s ['\r'] then s.take (s.length - 1) else s

/-- Accumulator-based splitting used by `splitLines`. -/
def splitLinesAux : GoStr → GoStr → List GoStr
  | acc, [] => if acc.isEmpty then [] else [dropCR acc.reverse]
  | acc, c :: s =>
    if c == '\n' then dropCR acc.reverse :: splitLinesAux [] s
    else splitLinesAux (c :: acc) s

/-- The line sequence produced by a `bufio.Scanner` over the given bytes:
split at newlines, no token for a trailing newline, one trailing `\r` dropped. -/
def splitLines (s : GoStr) : List GoStr := splitLinesAux [] s

/-- The source's `isAlphaNumeric`: underscore, letter or digit. -/
def isAlphaNumeric (c : Char) : Bool := c == '_' || c.isAlpha || c.isDigit

/-- Go `\w` word characters, used by the interface-opening regexp. -/
def isWordChar (c : Char) : Bool := c.isAlphanum || c == '_'

/-- The source's `typify`: the part after `:` when present, otherwise the spec itself. -/
def typify (s : GoStr) : GoStr :=
  match goIndex s [':'] with
  | some i => s.drop (i + 1)
  | none => s

/-- The stripping steps of `wordify` on an unlabeled spec: trailing `{`/`}`
trimmed, leading `*`/`&` trimmed, every `.` removed. -/
def wordifyCore (s : GoStr) : GoStr :=
  (goTrimLeftC (goTrimRightC s ['\x7b', '\x7d']) ['*', '&']).filter (fun c => c ≠ '.')

/-- The source's `wordify`.  On a labeled spec the label is returned as is;
otherwise the spec is stripped and, when `exported`, the source evaluates
`strings.ToUpper(string(s[0]))`, which panics on an empty string — that
unguarded access is modeled as `[]` here and as `none` in `wordifyO`. -/
def wordify (s : GoStr) (exported : Bool) : GoStr :=
  match goIndex s [':'] with
  | some i => s.take i
  | none =>
    let s' := wordifyCore s
    if !exported then s'
    else
      match s' with
      | [] => []
      | c :: rest => c.toUpper :: rest

/-- Fallible version of `wordify`: `none` exactly where the source would
index position 0 of an empty string. -/
def wordifyO (s : GoStr) (exported : Bool) : Option GoStr :=
  match goIndex s [':'] with
  | some i => some (s.take i)
  | none =>
    let s' := wordifyCore s
    if !exported then some s'
    else
      match s' with
      | [] => none
      | c :: rest => some (c.toUpper :: rest)

/-- The casing signal of `generateSpecific`:
`unicode.IsUpper(rune(strings.TrimLeft(word, "*&")[0]))`.  The source's
unguarded index is total here (`false` on the empty string, which is
unreachable at the call site since the word contains the placeholder). -/
def headIsUpper (w : GoStr) : Bool :=
  match goTrimLeftC w ['*', '&'] with
  | [] => false
  | c :: _ => c.isUpper

/-- The inner occurrence loop of `generateSpecific` over one word, with the
source's index handling: `i = strings.Index(word[i:], t)` reassigns `i` to an
index relative to the previous value, and the boundary test and
`strings.Replace(word, t, _, 1)` then use that relative index against the
whole word.  The source loop can run forever when a replacement reintroduces
`t`; `fuel` bounds the unrolling (all claims are settled at inputs where the
loop terminates within the given fuel). -/
def substWordLoop (t spec : GoStr) : Nat → Nat → GoStr → GoStr
  | 0, _, word => word
  | fuel + 1, i, word =>
    match goIndex (word.drop i) t with
    | none => word
    | some j =>
      let cond := (decide (0 < j) && isAlphaNumeric (word.getD (j - 1) ' '))
        || (decide (j < word.length - t.length) && isAlphaNumeric (word.getD (j + t.length) ' '))
      let repl := if cond then wordify spec (headIsUpper word) else typify spec
      substWordLoop t spec fuel j (goReplace1 word t repl)

/-- One binding applied to one line: when the line contains the placeholder,
the line is rebuilt from its whitespace-delimited fields, each processed by
the occurrence loop and emitted with a trailing space. -/
def substLine (fuel : Nat) (t spec l : GoStr) : GoStr :=
  if goContains l t then
    joinAll ((goFields l).map (fun w => substWordLoop t spec fuel 0 w ++ [' ']))
  else l

/-- The `for t, specificType := range typeSet` loop: the bindings applied in
enumeration order of the association list (Go iterates its map in
unspecified order; the order is explicit here). -/
def substAll (fuel : Nat) (ts : List (GoStr × GoStr)) (l : GoStr) : GoStr :=
  ts.foldl (fun cur p => substLine fuel p.1 p.2 cur) l

/-- The regexp `^\s*type\s+\w+\s+interface\s*\{` applied to a line. -/
def ifaceBeginMatch (l : GoStr) : Bool :=
  let s1 := l.dropWhile goIsSpace
  goHasPref s1 (chars "type") &&
    (match s1.drop 4 with
     | [] => false
     | c :: _ =>
       goIsSpace c &&
         (let s3 := (s1.drop 4).dropWhile goIsSpace
          !(s3.takeWhile isWordChar).isEmpty &&
            (match s3.dropWhile isWordChar with
             | [] => false
             | c2 :: _ =>
               goIsSpace c2 &&
                 (let s5 := (s3.dropWhile isWordChar).dropWhile goIsSpace
                  goHasPref s5 (chars "interface") &&
                    goHasPref ((s5.drop 9).dropWhile goIsSpace) ['\x7b']))))

/-- The regexp `^\s*\}` applied to a line. -/
def ifaceEndMatch (l : GoStr) : Bool :=
  goHasPref (l.dropWhile goIsSpace) ['\x7d']

/-- Whether a line mentions `generic.Type` or `generic.Number`. -/
def lineHasGeneric (l : GoStr) : Bool :=
  goContains l (chars "generic.Type") || goContains l (chars "generic.Number")

/-- One type declaration of the parsed template: its name, and the package
identifier of its defining type when that type is a selector expression
(`ts.Type` a `*ast.SelectorExpr` whose `X` is an identifier); the selector's
member name is never read by the source, so it is not recorded. -/
structure TypeSpecD where
  name : GoStr
  selPkg : Option GoStr
deriving DecidableEq

/-- A template as the engine receives it: its lines, together with the type
declarations collected from the structural parse (the parse itself is done
by the external `go/parser`; a template that fails to parse never reaches
the code modeled here). -/
structure ParsedTemplate where
  lines : List GoStr
  typeSpecs : List TypeSpecD
deriving DecidableEq

/-- Go map lookup `_, ok := typeSet[k]` on the association list. -/
def hasKey (ts : List (GoStr × GoStr)) (k : GoStr) : Bool :=
  ts.any (fun p => p.1 == k)

/-- The validation loop of `generateSpecific`: the first declared type whose
defining type is a selector into package `generic` and whose name has no
binding, if any. -/
def validate (decls : List TypeSpecD) (ts : List (GoStr × GoStr)) : Option GoStr :=
  (decls.find? (fun d => d.selPkg == some (chars "generic") && !hasKey ts d.name)).map (·.name)

/-- The error taxonomy of the source (`errSource`, `errMissingSpecificType`,
`errImports`). -/
inductive GenErr where
  | src : GenErr
  | missingType : GoStr → GenErr
  | imports : GenErr
deriving DecidableEq

/-- The per-line scanner state of `generateSpecific`: the output buffer, the
held comment (`""` when none), the buffered interface block, and whether that
block mentioned a generic type. -/
structure SpecState where
  buf : GoStr
  comment : GoStr
  ifaceLines : List GoStr
  containsType : Bool
deriving DecidableEq

/-- Initial scanner state. -/
def specInit : SpecState := ⟨[], [], [], false⟩

/-- One iteration of the scanner loop of `generateSpecific`, in the source's
order: interface-opening match (re)starts the buffer; a closing match flushes
the buffer raw (no newlines) when it never mentioned a generic type and
discards it otherwise; a `generic.Type`/`generic.Number` line clears the held
comment and marks a buffering block; otherwise the bindings are applied, a
held comment is flushed, a line that now starts with `//` is held, and the
result is buffered into an open interface block or written with a newline. -/
def processLine (fuel : Nat) (ts : List (GoStr × GoStr)) (st : SpecState) (l : GoStr) :
    SpecState :=
  let ifl := if ifaceBeginMatch l then [l] else st.ifaceLines
  if !ifl.isEmpty && ifaceEndMatch l then
    { buf := if st.containsType then st.buf else st.buf ++ joinAll (ifl ++ [l])
      comment := st.comment
      ifaceLines := []
      containsType := false }
  else if lineHasGeneric l then
    { st with
      comment := []
      ifaceLines := ifl
      containsType := if !ifl.isEmpty then true else st.containsType }
  else
    let l' := substAll fuel ts l
    let buf1 := if !st.comment.isEmpty then st.buf ++ line st.comment else st.buf
    if goHasPref l' (chars "//") then
      { buf := buf1, comment := l', ifaceLines := ifl, containsType := st.containsType }
    else if !ifl.isEmpty then
      { buf := buf1, comment := [], ifaceLines := ifl ++ [l'], containsType := st.containsType }
    else
      { buf := buf1 ++ line l', comment := [], ifaceLines := ifl, containsType := st.containsType }

/-- The source's `generateSpecific`: validate that every type declared as a
selector into package `generic` has a binding, then rewrite the template line
by line.  A pending comment or interface buffer at end of input is dropped,
as in the source. -/
def generateSpecific (fuel : Nat) (ts : List (GoStr × GoStr)) (tpl : ParsedTemplate) :
    Except GenErr GoStr :=
  match validate tpl.typeSpecs ts with
  | some name => .error (.missingType name)
  | none => .ok (tpl.lines.foldl (processLine fuel ts) specInit).buf

/-- The always-unwanted line starts of the aggregator. -/
def unwantedBase : List GoStr :=
  [chars "//go:generate genny ", chars "//go:generate $GOPATH/bin/genny "]

/-- The cleanup state of `Generics`: whether a package clause was seen, its
line, the inside-import-block flag, the collected import entries, and the
surviving body lines. -/
structure CleanState where
  pkgFound : Bool
  pkgLine : GoStr
  insideImp : Bool
  imps : List GoStr
  outLines : List GoStr
deriving DecidableEq

/-- Initial cleanup state. -/
def cleanInit : CleanState := ⟨false, [], false, [], []⟩

/-- Modelled from the spec: `stringArraySet` (whose definition is not among
the given sources) is "an explicit ordered set type (insertion-order-
preserving, membership-checked)"; its `append` adds an element only when it
is not yet present. -/
def appendUniq (xs : List GoStr) (x : GoStr) : List GoStr :=
  if xs.contains x then xs else xs ++ [x]

/-- The import path extracted from a single-line import:
`strings.TrimSpace(strings.TrimSpace(line(l))[6:])`. -/
def singleImp (l : GoStr) : GoStr :=
  goTrimSpace ((goTrimSpace (line l)).drop 6)

/-- One iteration of the cleanup loop of `Generics`, in the source's order:
inside an import block each line is collected (via `line`) until a line
ending in `)`; the first `package`-started line is kept and later ones
dropped; an `import`-started line opens a block (when ending in `(`) or is
folded in as a single import; lines starting with an unwanted prefix are
dropped; everything else survives into the body. -/
def cleanStep (unw : List GoStr) (st : CleanState) (l : GoStr) : CleanState :=
  if st.insideImp then
    if goHasSuffix l [')'] then { st with insideImp := false }
    else { st with imps := appendUniq st.imps (line l) }
  else if goHasPref l (chars "package") then
    if st.pkgFound then st
    else { st with pkgFound := true, pkgLine := line l }
  else if goHasPref l (chars "import") then
    if goHasSuffix l ['('] then { st with insideImp := true }
    else { st with imps := appendUniq st.imps (singleImp l) }
  else if unw.any (fun p => goHasPref l p) then st
  else { st with outLines := st.outLines ++ [line l] }

/-- The cleanup loop over the concatenated specializations' lines. -/
def cleanup (unw : List GoStr) (lns : List GoStr) : CleanState :=
  lns.foldl (cleanStep unw) cleanInit

/-- The fixed generated-file header comment. -/
def headerS : GoStr :=
  chars "\n\n// This file was automatically generated by genny.\n// Any changes will be lost if this file is regenerated.\n// see https://github.com/mauricelam/genny\n\n"

/-- The final assembly of `Generics` (`cleanOutputLines`): header, package
line, one import block with the collected entries, then the body. -/
def assemble (st : CleanState) : List GoStr :=
  [headerS, st.pkgLine, chars "import (\n"] ++ st.imps.map (fun e => e ++ ['\n'])
    ++ [chars ")\n"] ++ st.outLines

/-- Go `strings.Split s (String sep)` for a one-character separator. -/
def goSplitOnAux (sep : Char) : GoStr → GoStr → List GoStr
  | acc, [] => [acc.reverse]
  | acc, c :: s =>
    if c == sep then acc.reverse :: goSplitOnAux sep [] s
    else goSplitOnAux sep (c :: acc) s

/-- Go `strings.Split` on a one-character separator. -/
def goSplitOn (s : GoStr) (sep : Char) : List GoStr := goSplitOnAux sep [] s

/-- Go `strings.Join` with a one-character separator. -/
def goJoinSep : List GoStr → Char → GoStr
  | [], _ => []
  | [x], _ => x
  | x :: xs, sep => x ++ sep :: goJoinSep xs sep

/-- The source's `changePackage` over scanner lines: the first
`package`-started line has its second space-separated part replaced by the
new name (the source's `parts[1] = pkgName` is unguarded; `List.set` is a
no-op when no second part exists, a case no valid package clause produces). -/
def changePackage (pkg : GoStr) : Bool → List GoStr → GoStr
  | _, [] => []
  | done, l :: ls =>
    if !done && goHasPref l (chars "package") then
      goJoinSep ((goSplitOn l ' ').set 1 pkg) ' ' ++ '\n' :: changePackage pkg true ls
    else l ++ '\n' :: changePackage pkg done ls

/-- The source's `addImports` over scanner lines: after the first
`package`-started line, one `import "path"` line per requested path. -/
def addImports (paths : List GoStr) : Bool → List GoStr → GoStr
  | _, [] => []
  | done, l :: ls =>
    if !done && goHasPref l (chars "package") then
      l ++ '\n' :: (joinAll (paths.map (fun p => chars "import \"" ++ p ++ chars "\"\n"))
        ++ addImports paths true ls)
    else l ++ '\n' :: addImports paths done ls

/-- The specialization loop of `Generics`: one `generateSpecific` run per
binding set, outputs concatenated in request order, the first error aborting
the whole request. -/
def specializeAll (fuel : Nat) (tpl : ParsedTemplate) :
    List (List (GoStr × GoStr)) → Except GenErr GoStr
  | [] => .ok []
  | ts :: rest => do
    let b ← generateSpecific fuel ts tpl
    let r ← specializeAll fuel tpl rest
    .ok (b ++ r)

/-- The source's `Generics`: specialize once per binding set, clean up the
concatenation, assemble header/package/imports/body, then apply the optional
package rename and extra imports.  The final `imports.Process` call is the
external import-normalization collaborator and is modeled as the identity
(its failure, `errImports`, cannot arise in the model). -/
def Generics (fuel : Nat) (pkgName : GoStr) (tpl : ParsedTemplate)
    (typeSets : List (List (GoStr × GoStr))) (importPaths : List GoStr)
    (stripTag : GoStr) : Except GenErr GoStr := do
  let unw := unwantedBase
    ++ (if !stripTag.isEmpty then [chars "// +build " ++ stripTag] else [])
  let total ← specializeAll fuel tpl typeSets
  let st := cleanup unw (splitLines total)
  let out1 := joinAll (assemble st)
  let out2 := if !pkgName.isEmpty then changePackage pkgName false (splitLines out1) else out1
  let out3 := if !importPaths.isEmpty then addImports importPaths false (splitLines out2) else out2
  .ok out3

/-! Claim-side definitions, written from the spec's words, for comparison
with the source-translated definitions above. -/

/-- The spec's classification rule for an occurrence of placeholder `t` at
(absolute) position `j` of word `w`: a *partial* match exactly when the
character immediately before or immediately after the occurrence is
alphanumeric or underscore. -/
def neighborRule (w t : GoStr) (j : Nat) : Bool :=
  (decide (0 < j) && isAlphaNumeric (w.getD (j - 1) ' '))
    || (decide (j + t.length < w.length) && isAlphaNumeric (w.getD (j + t.length) ' '))

/-- The spec's decoration stripping: trailing `{`/`}`, leading `*`/`&`, and
every `.` removed. -/
def claimStrip (s : GoStr) : GoStr :=
  (goTrimLeftC (goTrimRightC s ['\x7b', '\x7d']) ['*', '&']).filter (fun c => c ≠ '.')

/-- First letter uppercased. -/
def upFirst : GoStr → GoStr
  | [] => []
  | c :: r => c.toUpper :: r

/-- First letter lowercased. -/
def downFirst : GoStr → GoStr
  | [] => []
  | c :: r => c.toLower :: r

/-- The `Label` half of a spec (the whole spec if unlabeled). -/
def claimLabel (s : GoStr) : GoStr :=
  match goIndex s [':'] with
  | some i => s.take i
  | none => s

/-- The wordification the claim describes: Label half stripped of
decoration, first letter's case forced to the surrounding identifier's
(uppercase when exported, lowercase when not). -/
def claimWordify (s : GoStr) (exported : Bool) : GoStr :=
  if exported then upFirst (claimStrip (claimLabel s)) else downFirst (claimStrip (claimLabel s))

/-! Helper functions naming aspects of the cleanup loop, used to state the
aggregation claim: the import entries in encounter order (with repetitions),
and the first package clause reachable outside an import block. -/

/-- All import entries of a line sequence in encounter order, with
repetitions, threading the inside-import-block flag exactly as the cleanup
loop does. -/
def rawImps : Bool → List GoStr → List GoStr
  | _, [] => []
  | true, l :: ls =>
    if goHasSuffix l [')'] then rawImps false ls else line l :: rawImps true ls
  | false, l :: ls =>
    if goHasPref l (chars "package") then rawImps false ls
    else if goHasPref l (chars "import") then
      if goHasSuffix l ['('] then rawImps true ls else singleImp l :: rawImps false ls
    else rawImps false ls

/-- The first `package`-started line encountered outside an import block. -/
def pkgScan : Bool → List GoStr → Option GoStr
  | _, [] => none
  | true, l :: ls => pkgScan (!goHasSuffix l [')']) ls
  | false, l :: ls =>
    if goHasPref l (chars "package") then some l
    else if goHasPref l (chars "import") then pkgScan (goHasSuffix l ['(']) ls
    else pkgScan false ls

/-- The body lines surviving the cleanup loop, in order: every line outside
an import block that is not a package clause, not an import line, and not
unwanted, emitted through `line`. -/
def survivors (unw : List GoStr) : Bool → List GoStr → List GoStr
  | _, [] => []
  | true, l :: ls => survivors unw (!goHasSuffix l [')']) ls
  | false, l :: ls =>
    if goHasPref l (chars "package") then survivors unw false ls
    else if goHasPref l (chars "import") then survivors unw (goHasSuffix l ['(']) ls
    else if unw.any (fun p => goHasPref l p) then survivors unw false ls
    else line l :: survivors unw false ls

/-! ### Shared helper lemmas -/

/-- The source's stripping steps and the spec's stripping description agree. -/
theorem wordifyCore_eq_claimStrip (s : GoStr) : wordifyCore s = claimStrip s := rfl

/-- One unfolding of the occurrence loop started at index 0: the occurrence
found is at its absolute position, so the source's boundary test coincides
with the spec's neighbor rule, and the replacement is `wordify` on a partial
match and `typify` on an exact one. -/
theorem substWordLoop_first_step (t spec word : GoStr) (fuel j : Nat)
    (h : goIndex word t = some j) :
    substWordLoop t spec (fuel + 1) 0 word =
      substWordLoop t spec fuel j
        (goReplace1 word t
          (if neighborRule word t j then wordify spec (headIsUpper word) else typify spec)) := by
  have hb : decide (j < word.length - t.length) = decide (j + t.length < word.length) :=
    decide_eq_decide.mpr (by omega)
  unfold substWordLoop
  rw [List.drop_zero, h]
  simp only [neighborRule, hb]
  cases fuel <;> rfl

/-- A Boolean prefix extends along an appended tail. -/
theorem goPrefOf_append (p a b : GoStr) (h : goPrefOf p a = true) :
    goPrefOf p (a ++ b) = true := by
  induction p generalizing a with
  | nil => rfl
  | cons c p' ih =>
    cases a with
    | nil => exact absurd h (by simp [goPrefOf])
    | cons x xs =>
      simp only [goPrefOf, List.cons_append, Bool.and_eq_true] at h ⊢
      exact ⟨h.1, ih xs h.2⟩

/-- A Boolean prefix decomposes the list. -/
theorem goPrefOf_ex (p x : GoStr) (h : goPrefOf p x = true) : ∃ y, x = p ++ y := by
  induction p generalizing x with
  | nil => exact ⟨x, rfl⟩
  | cons c p' ih =>
    cases x with
    | nil => exact absurd h (by simp [goPrefOf])
    | cons b bs =>
      simp only [goPrefOf, Bool.and_eq_true] at h
      obtain ⟨y, hy⟩ := ih bs h.2
      exact ⟨y, by rw [List.cons_append, ← hy, eq_of_beq h.1]⟩

/-- Every list is a Boolean prefix of itself followed by anything. -/
theorem goPrefOf_self_append (p b : GoStr) : goPrefOf p (p ++ b) = true := by
  induction p with
  | nil => rfl
  | cons c p' ih =>
    simp only [goPrefOf, List.cons_append, Bool.and_eq_true]
    exact ⟨beq_self_eq_true c, ih⟩

/-- A newline-free Boolean prefix of `a ++ "\n"` is a prefix of `a`. -/
theorem goPrefOf_snoc_nl (p a : GoStr) (hnl : ('\n' : Char) ∉ p)
    (h : goPrefOf p (a ++ ['\n']) = true) : goPrefOf p a = true := by
  induction p generalizing a with
  | nil => rfl
  | cons c p' ih =>
    cases a with
    | nil =>
      simp only [List.nil_append, goPrefOf, Bool.and_eq_true] at h
      exact absurd (eq_of_beq h.1 ▸ List.mem_cons_self c p') hnl
    | cons b bs =>
      simp only [goPrefOf, List.cons_append, Bool.and_eq_true] at h ⊢
      exact ⟨h.1, ih bs (fun hm => hnl (List.mem_cons_of_mem c hm)) h.2⟩

/-- `goTrimRightC` returns a prefix of its input. -/
theorem goTrimRightC_prefix (l : GoStr) (cut : List Char) :
    ∃ b, l = goTrimRightC l cut ++ b := by
  refine ⟨(l.reverse.takeWhile (fun c => cut.contains c)).reverse, ?_⟩
  unfold goTrimRightC
  rw [← List.reverse_append, List.takeWhile_append_dropWhile, List.reverse_reverse]

/-- Right-trimming an appended list whose left part avoids the cutset
trims only the right part. -/
theorem goTrimRightC_append_of (p rest : GoStr) (cut : List Char)
    (hp : ∀ c ∈ p, cut.contains c = false) :
    goTrimRightC (p ++ rest) cut = p ++ goTrimRightC rest cut := by
  unfold goTrimRightC
  rw [List.reverse_append, List.dropWhile_append]
  by_cases h : (rest.reverse.dropWhile (fun c => cut.contains c)).isEmpty = true
  · rw [if_pos h]
    have hrev : p.reverse.dropWhile (fun c => cut.contains c) = p.reverse := by
      cases hpr : p.reverse with
      | nil => rfl
      | cons c cs =>
        have hc : cut.contains c = false :=
          hp c (List.mem_reverse.mp (hpr ▸ List.mem_cons_self c cs))
        rw [List.dropWhile_cons, hc]
        simp
    rw [hrev, List.reverse_reverse, List.isEmpty_iff.mp h]
    simp
  · rw [if_neg h, List.reverse_append, List.reverse_reverse]

/-- A newline-free prefix of `line l` is a prefix of `l`. -/
theorem goHasPref_line_elim (l p : GoStr) (hnl : ('\n' : Char) ∉ p)
    (h : goHasPref (line l) p = true) : goHasPref l p = true := by
  unfold goHasPref at h ⊢
  unfold line at h
  have h1 : goPrefOf p (goTrimRightC l ['\r', '\n']) = true := goPrefOf_snoc_nl p _ hnl h
  obtain ⟨b, hb⟩ := goTrimRightC_prefix l ['\r', '\n']
  rw [hb]
  exact goPrefOf_append _ _ _ h1

/-- A prefix avoiding `\r` and `\n` survives into `line l`. -/
theorem goHasPref_line_intro (l p : GoStr)
    (hp : ∀ c ∈ p, (['\r', '\n'] : List Char).contains c = false)
    (h : goHasPref l p = true) : goHasPref (line l) p = true := by
  unfold goHasPref at h ⊢
  obtain ⟨y, hy⟩ := goPrefOf_ex p l h
  unfold line
  rw [hy, goTrimRightC_append_of p y _ hp, List.append_assoc]
  exact goPrefOf_self_append _ _

/-- A newline-free non-prefix stays a non-prefix of `e ++ "\n"`. -/
theorem goHasPref_snoc_nl_neg (e p : GoStr) (hnl : ('\n' : Char) ∉ p)
    (h : goHasPref e p = false) : goHasPref (e ++ ['\n']) p = false := by
  unfold goHasPref at h ⊢
  cases hq : goPrefOf p (e ++ ['\n']) with
  | false => rfl
  | true => exact absurd (goPrefOf_snoc_nl p e hnl hq) (by rw [h]; exact Bool.false_ne_true)

/-- A line starting with `package` does not start with `import`. -/
theorem pkg_not_imp (x : GoStr) (h : goHasPref x (chars "package") = true) :
    goHasPref x (chars "import") = false := by
  obtain ⟨y, hy⟩ := goPrefOf_ex _ _ h
  subst hy
  rfl

/-- Membership in `appendUniq`. -/
theorem mem_appendUniq (xs : List GoStr) (x y : GoStr) :
    y ∈ appendUniq xs x ↔ y ∈ xs ∨ y = x := by
  unfold appendUniq
  by_cases h : xs.contains x = true
  · rw [if_pos h]
    exact ⟨Or.inl, fun hy => hy.elim id (fun he => he ▸ List.elem_iff.mp h)⟩
  · rw [if_neg h]
    simp

/-- `appendUniq` preserves `Nodup`. -/
theorem nodup_appendUniq (xs : List GoStr) (x : GoStr) (h : xs.Nodup) :
    (appendUniq xs x).Nodup := by
  unfold appendUniq
  by_cases hc : xs.contains x = true
  · rw [if_pos hc]; exact h
  · rw [if_neg hc]
    rw [List.nodup_append]
    refine ⟨h, List.nodup_singleton x, fun a ha hax => ?_⟩
    rw [List.mem_singleton] at hax
    exact hc (List.elem_iff.mpr (hax ▸ ha))

/-- Membership in a left fold of `appendUniq`: union of seed and entries. -/
theorem mem_foldl_appendUniq : ∀ (js : List GoStr) (xs : List GoStr) (y : GoStr),
    y ∈ js.foldl appendUniq xs ↔ y ∈ xs ∨ y ∈ js
  | [], xs, y => by simp
  | j :: js, xs, y => by
    rw [List.foldl_cons, mem_foldl_appendUniq js _ y, mem_appendUniq]
    constructor
    · rintro ((h | rfl) | h)
      · exact Or.inl h
      · exact Or.inr (List.mem_cons_self _ _)
      · exact Or.inr (List.mem_cons_of_mem _ h)
    · rintro (h | h)
      · exact Or.inl (Or.inl h)
      · rcases List.mem_cons.mp h with rfl | h2
        · exact Or.inl (Or.inr rfl)
        · exact Or.inr h2

/-- A left fold of `appendUniq` over a `Nodup` seed is `Nodup`. -/
theorem nodup_foldl_appendUniq : ∀ (js xs : List GoStr), xs.Nodup →
    (js.foldl appendUniq xs).Nodup
  | [], _, h => h
  | j :: js, xs, h => by
    rw [List.foldl_cons]
    exact nodup_foldl_appendUniq js _ (nodup_appendUniq xs j h)

/-- The imports collected by the cleanup loop are the fold of the
deduplicating append over the raw entries in encounter order. -/
theorem cleanup_imps_raw (unw : List GoStr) : ∀ (lns : List GoStr) (st : CleanState),
    (lns.foldl (cleanStep unw) st).imps = (rawImps st.insideImp lns).foldl appendUniq st.imps
  | [], st => by simp [rawImps]
  | l :: lns, st => by
    rw [List.foldl_cons, cleanup_imps_raw unw lns (cleanStep unw st l)]
    by_cases h1 : st.insideImp = true
    · by_cases h2 : goHasSuffix l [')'] = true
      · simp [cleanStep, rawImps, h1, h2]
      · simp [cleanStep, rawImps, h1, h2]
    · rw [Bool.not_eq_true] at h1
      by_cases h3 : goHasPref l (chars "package") = true
      · by_cases h4 : st.pkgFound = true
        · simp [cleanStep, rawImps, h1, h3, h4]
        · simp [cleanStep, rawImps, h1, h3, h4]
      · by_cases h5 : goHasPref l (chars "import") = true
        · by_cases h6 : goHasSuffix l ['('] = true
          · simp [cleanStep, rawImps, h1, h3, h5, h6]
          · simp [cleanStep, rawImps, h1, h3, h5, h6]
        · by_cases h7 : unw.any (fun p => goHasPref l p) = true
          · simp [cleanStep, rawImps, h1, h3, h5, h7]
          · simp [cleanStep, rawImps, h1, h3, h5, h7]

/-- The body lines produced by the cleanup loop extend the seed by the
survivors of the input. -/
theorem cleanup_out_survivors (unw : List GoStr) : ∀ (lns : List GoStr) (st : CleanState),
    (lns.foldl (cleanStep unw) st).outLines = st.outLines ++ survivors unw st.insideImp lns
  | [], st => by simp [survivors]
  | l :: lns, st => by
    rw [List.foldl_cons, cleanup_out_survivors unw lns (cleanStep unw st l)]
    by_cases h1 : st.insideImp = true
    · by_cases h2 : goHasSuffix l [')'] = true
      · simp [cleanStep, survivors, h1, h2]
      · simp [cleanStep, survivors, h1, h2]
    · rw [Bool.not_eq_true] at h1
      by_cases h3 : goHasPref l (chars "package") = true
      · by_cases h4 : st.pkgFound = true
        · simp [cleanStep, survivors, h1, h3, h4]
        · simp [cleanStep, survivors, h1, h3, h4]
      · by_cases h5 : goHasPref l (chars "import") = true
        · by_cases h6 : goHasSuffix l ['('] = true
          · simp [cleanStep, survivors, h1, h3, h5, h6]
          · simp [cleanStep, survivors, h1, h3, h5, h6]
        · by_cases h7 : unw.any (fun p => goHasPref l p) = true
          · simp [cleanStep, survivors, h1, h3, h5, h7]
          · simp [cleanStep, survivors, h1, h3, h5, h7]

/-- Once the package clause is found, the cleanup loop never changes it. -/
theorem cleanup_pkg_stable (unw : List GoStr) : ∀ (lns : List GoStr) (st : CleanState),
    st.pkgFound = true →
    (lns.foldl (cleanStep unw) st).pkgLine = st.pkgLine
      ∧ (lns.foldl (cleanStep unw) st).pkgFound = true
  | [], st, h => ⟨rfl, h⟩
  | l :: lns, st, h => by
    rw [List.foldl_cons]
    have hstep : (cleanStep unw st l).pkgLine = st.pkgLine
        ∧ (cleanStep unw st l).pkgFound = true := by
      by_cases h1 : st.insideImp = true
      · by_cases h2 : goHasSuffix l [')'] = true
        · simp [cleanStep, h1, h2, h]
        · simp [cleanStep, h1, h2, h]
      · rw [Bool.not_eq_true] at h1
        by_cases h3 : goHasPref l (chars "package") = true
        · simp [cleanStep, h1, h3, h]
        · by_cases h5 : goHasPref l (chars "import") = true
          · by_cases h6 : goHasSuffix l ['('] = true
            · simp [cleanStep, h1, h3, h5, h6, h]
            · simp [cleanStep, h1, h3, h5, h6, h]
          · by_cases h7 : unw.any (fun p => goHasPref l p) = true
            · simp [cleanStep, h1, h3, h5, h7, h]
            · simp [cleanStep, h1, h3, h5, h7, h]
    have ih := cleanup_pkg_stable unw lns (cleanStep unw st l) hstep.2
    exact ⟨ih.1.trans hstep.1, ih.2⟩

/-- Before the package clause is found, the cleanup loop's package line is
the first package clause reachable outside an import block. -/
theorem cleanup_pkg_scan (unw : List GoStr) : ∀ (lns : List GoStr) (st : CleanState),
    st.pkgFound = false →
    (lns.foldl (cleanStep unw) st).pkgLine
        = (match pkgScan st.insideImp lns with
           | some lp => line lp
           | none => st.pkgLine)
      ∧ (lns.foldl (cleanStep unw) st).pkgFound = (pkgScan st.insideImp lns).isSome
  | [], st, h => by simp [pkgScan, h]
  | l :: lns, st, h => by
    obtain ⟨pf, pl, ii, im, ol⟩ := st
    simp only at h
    subst h
    rw [List.foldl_cons]
    by_cases h1 : ii = true
    · subst h1
      by_cases h2 : goHasSuffix l [')'] = true
      · have hstep : cleanStep unw ⟨false, pl, true, im, ol⟩ l = ⟨false, pl, false, im, ol⟩ := by
          simp [cleanStep, h2]
        have ih := cleanup_pkg_scan unw lns ⟨false, pl, false, im, ol⟩ rfl
        rw [hstep]
        simpa [pkgScan, h2] using ih
      · have hstep : cleanStep unw ⟨false, pl, true, im, ol⟩ l
            = ⟨false, pl, true, appendUniq im (line l), ol⟩ := by
          simp [cleanStep, h2]
        have ih := cleanup_pkg_scan unw lns ⟨false, pl, true, appendUniq im (line l), ol⟩ rfl
        rw [hstep]
        simpa [pkgScan, h2] using ih
    · rw [Bool.not_eq_true] at h1
      subst h1
      by_cases h3 : goHasPref l (chars "package") = true
      · have hstep : cleanStep unw ⟨false, pl, false, im, ol⟩ l
            = ⟨true, line l, false, im, ol⟩ := by
          simp [cleanStep, h3]
        have ih := cleanup_pkg_stable unw lns ⟨true, line l, false, im, ol⟩ rfl
        rw [hstep]
        simp [pkgScan, h3, ih.1, ih.2]
      · by_cases h5 : goHasPref l (chars "import") = true
        · by_cases h6 : goHasSuffix l ['('] = true
          · have hstep : cleanStep unw ⟨false, pl, false, im, ol⟩ l
                = ⟨false, pl, true, im, ol⟩ := by
              simp [cleanStep, h3, h5, h6]
            have ih := cleanup_pkg_scan unw lns ⟨false, pl, true, im, ol⟩ rfl
            rw [hstep]
            simpa [pkgScan, h3, h5, h6] using ih
          · have hstep : cleanStep unw ⟨false, pl, false, im, ol⟩ l
                = ⟨false, pl, false, appendUniq im (singleImp l), ol⟩ := by
              simp [cleanStep, h3, h5, h6]
            have ih := cleanup_pkg_scan unw lns ⟨false, pl, false, appendUniq im (singleImp l), ol⟩ rfl
            rw [hstep]
            simpa [pkgScan, h3, h5, h6] using ih
        · by_cases h7 : unw.any (fun p => goHasPref l p) = true
          · have hstep : cleanStep unw ⟨false, pl, false, im, ol⟩ l
                = ⟨false, pl, false, im, ol⟩ := by
              simp [cleanStep, h3, h5, h7]
            have ih := cleanup_pkg_scan unw lns ⟨false, pl, false, im, ol⟩ rfl
            rw [hstep]
            simpa [pkgScan, h3, h5] using ih
          · have hstep : cleanStep unw ⟨false, pl, false, im, ol⟩ l
                = ⟨false, pl, false, im, ol ++ [line l]⟩ := by
              simp [cleanStep, h3, h5, h7]
            have ih := cleanup_pkg_scan unw lns ⟨false, pl, false, im, ol ++ [line l]⟩ rfl
            rw [hstep]
            simpa [pkgScan, h3, h5] using ih

/-- The survivors are a sublist of the input's lines mapped through `line`:
every surviving line appears once, in input order. -/
theorem survivors_sublist (unw : List GoStr) : ∀ (ins : Bool) (lns : List GoStr),
    List.Sublist (survivors unw ins lns) (lns.map line)
  | _, [] => by simp [survivors]
  | true, l :: lns => by
    rw [List.map_cons]
    exact (survivors_sublist unw _ lns).cons (line l)
  | false, l :: lns => by
    rw [List.map_cons]
    unfold survivors
    by_cases h3 : goHasPref l (chars "package") = true
    · rw [if_pos h3]
      exact (survivors_sublist unw false lns).cons (line l)
    · rw [if_neg h3]
      by_cases h5 : goHasPref l (chars "import") = true
      · rw [if_pos h5]
        exact (survivors_sublist unw _ lns).cons (line l)
      · rw [if_neg h5]
        by_cases h7 : unw.any (fun p => goHasPref l p) = true
        · rw [if_pos h7]
          exact (survivors_sublist unw false lns).cons (line l)
        · rw [if_neg h7]
          exact (survivors_sublist unw false lns).cons₂ (line l)

/-- Every survivor comes from a line that starts with neither `package` nor
`import`. -/
theorem survivors_not_pkg_imp (unw : List GoStr) : ∀ (ins : Bool) (lns : List GoStr)
    (x : GoStr), x ∈ survivors unw ins lns →
    ∃ l, x = line l ∧ goHasPref l (chars "package") = false
      ∧ goHasPref l (chars "import") = false
  | true, l :: lns, x, hx => survivors_not_pkg_imp unw _ lns x hx
  | false, l :: lns, x, hx => by
    unfold survivors at hx
    by_cases h3 : goHasPref l (chars "package") = true
    · exact survivors_not_pkg_imp unw false lns x (by rwa [if_pos h3] at hx)
    · rw [if_neg h3] at hx
      by_cases h5 : goHasPref l (chars "import") = true
      · exact survivors_not_pkg_imp unw _ lns x (by rwa [if_pos h5] at hx)
      · rw [if_neg h5] at hx
        by_cases h7 : unw.any (fun p => goHasPref l p) = true
        · exact survivors_not_pkg_imp unw false lns x (by rwa [if_pos h7] at hx)
        · rw [if_neg h7] at hx
          rcases List.mem_cons.mp hx with rfl | h2
          · exact ⟨l, rfl, Bool.not_eq_true _ ▸ h3, Bool.not_eq_true _ ▸ h5⟩
          · exact survivors_not_pkg_imp unw false lns x h2

/-- A scanned package clause starts with `package`. -/
theorem pkgScan_pref : ∀ (ins : Bool) (lns : List GoStr) (lp : GoStr),
    pkgScan ins lns = some lp → goHasPref lp (chars "package") = true
  | true, l :: lns, lp, h => pkgScan_pref _ lns lp h
  | false, l :: lns, lp, h => by
    unfold pkgScan at h
    by_cases h3 : goHasPref l (chars "package") = true
    · rw [if_pos h3] at h
      cases h
      exact h3
    · rw [if_neg h3] at h
      by_cases h5 : goHasPref l (chars "import") = true
      · rw [if_pos h5] at h
        exact pkgScan_pref _ lns lp h
      · rw [if_neg h5] at h
        exact pkgScan_pref false lns lp h

/-- A binding set that passes validation specializes successfully. -/
theorem generateSpecific_ok (fuel : Nat) (ts : List (GoStr × GoStr)) (tpl : ParsedTemplate)
    (h : validate tpl.typeSpecs ts = none) :
    generateSpecific fuel ts tpl = .ok (tpl.lines.foldl (processLine fuel ts) specInit).buf := by
  unfold generateSpecific
  rw [h]

/-- The specialization loop fails with the error of the first failing
binding set when all earlier sets validate. -/
theorem specializeAll_error (fuel : Nat) (tpl : ParsedTemplate) (ts : List (GoStr × GoStr))
    (post : List (List (GoStr × GoStr))) (n : GoStr)
    (hv : validate tpl.typeSpecs ts = some n) :
    ∀ pre, (∀ ts' ∈ pre, validate tpl.typeSpecs ts' = none) →
      specializeAll fuel tpl (pre ++ ts :: post) = .error (.missingType n)
  | [], _ => by
    simp only [List.nil_append, specializeAll]
    unfold generateSpecific
    rw [hv]
    rfl
  | p :: pre, hpre => by
    have h1 : validate tpl.typeSpecs p = none := hpre p (List.mem_cons_self _ _)
    have ih := specializeAll_error fuel tpl ts post n hv pre
      (fun ts' h => hpre ts' (List.mem_cons_of_mem _ h))
    have ih' : specializeAll fuel tpl (pre.append (ts :: post))
        = Except.error (GenErr.missingType n) := ih
    simp only [List.cons_append, specializeAll]
    unfold generateSpecific
    rw [h1, ih']
    rfl

/-! ### C1: missing bindings abort the whole request -/

/-- C1: when a type declared in the template as a selector into the
reserved `generic` package has no key in a binding set of the request (and
every earlier binding set covers its placeholders), the whole generation
call fails with `errMissingSpecificType` naming the first unbound
placeholder found in declaration order, and — the result being an error —
no output bytes and no partial multi-specialization output are produced. -/
theorem c1_missing_binding (fuel : Nat) (pkgName : GoStr) (tpl : ParsedTemplate)
    (pre post : List (List (GoStr × GoStr))) (ts : List (GoStr × GoStr))
    (importPaths : List GoStr) (stripTag : GoStr) (d : TypeSpecD)
    (hpre : ∀ ts' ∈ pre, validate tpl.typeSpecs ts' = none)
    (hd : tpl.typeSpecs.find?
        (fun d' => d'.selPkg == some (chars "generic") && !hasKey ts d'.name) = some d) :
    Generics fuel pkgName tpl (pre ++ ts :: post) importPaths stripTag
      = .error (.missingType d.name) := by
  have hv : validate tpl.typeSpecs ts = some d.name := by
    unfold validate
    rw [hd]
    rfl
  have hs := specializeAll_error fuel tpl ts post d.name hv pre hpre
  unfold Generics
  rw [hs]
  rfl

/-- C1 witness: a one-declaration template `type T generic.Type` and the
request consisting of one empty binding set. -/
theorem c1_missing_binding_wit :
    (∀ ts' ∈ ([] : List (List (GoStr × GoStr))),
        validate [⟨chars "T", some (chars "generic")⟩] ts' = none)
    ∧ ([⟨chars "T", some (chars "generic")⟩] : List TypeSpecD).find?
        (fun d' => d'.selPkg == some (chars "generic") && !hasKey [] d'.name)
        = some ⟨chars "T", some (chars "generic")⟩
    ∧ Generics 1 [] ⟨[chars "package main"], [⟨chars "T", some (chars "generic")⟩]⟩
        ([] ++ [] :: []) [] [] = .error (.missingType (chars "T")) :=
  ⟨by simp, by decide,
    c1_missing_binding 1 [] ⟨[chars "package main"], [⟨chars "T", some (chars "generic")⟩]⟩
      [] [] [] [] [] ⟨chars "T", some (chars "generic")⟩ (by simp) (by decide)⟩

/-! ### C2: shape of the merged output -/

/-- C2: when the concatenated specializations contain a package clause
(reachable outside an import block) and the import entries are themselves
neither package nor import clauses, the assembled output has exactly one
line starting with `package` and exactly one line starting with `import`
(the single import block); the kept package line is the first one
encountered; the collected import entries are the deduplicating left fold —
first-encountered order, no duplicates — of all import entries of all
specializations; the body lines are a sublist of the input lines (each
surviving declaration appearing exactly once, in request order); and the
output starts with the fixed generated-file header comment. -/
theorem c2_merge_shape (lns unw : List GoStr) (lp : GoStr)
    (hpkg : pkgScan false lns = some lp)
    (hent : ∀ e ∈ rawImps false lns,
      goHasPref e (chars "package") = false ∧ goHasPref e (chars "import") = false) :
    (assemble (cleanup unw lns)).countP (fun x => goHasPref x (chars "package")) = 1
    ∧ (assemble (cleanup unw lns)).countP (fun x => goHasPref x (chars "import")) = 1
    ∧ (cleanup unw lns).pkgLine = line lp
    ∧ (cleanup unw lns).imps = (rawImps false lns).foldl appendUniq []
    ∧ (cleanup unw lns).imps.Nodup
    ∧ List.Sublist (cleanup unw lns).outLines (lns.map line)
    ∧ (assemble (cleanup unw lns)).head? = some headerS := by
  have himps : (cleanup unw lns).imps = (rawImps false lns).foldl appendUniq [] := by
    simpa [cleanup] using cleanup_imps_raw unw lns cleanInit
  have hnodup : (cleanup unw lns).imps.Nodup := by
    rw [himps]
    exact nodup_foldl_appendUniq _ _ List.nodup_nil
  have hout : (cleanup unw lns).outLines = survivors unw false lns := by
    simpa [cleanup] using cleanup_out_survivors unw lns cleanInit
  have hsub : List.Sublist (cleanup unw lns).outLines (lns.map line) := by
    rw [hout]
    exact survivors_sublist unw false lns
  have hpl : (cleanup unw lns).pkgLine = line lp := by
    have h := (cleanup_pkg_scan unw lns cleanInit rfl).1
    rw [show cleanInit.insideImp = false from rfl, hpkg] at h
    simpa [cleanup] using h
  have hlp_pkg : goHasPref (line lp) (chars "package") = true :=
    goHasPref_line_intro lp _ (by decide) (pkgScan_pref false lns lp hpkg)
  have hlp_imp : goHasPref (line lp) (chars "import") = false := pkg_not_imp _ hlp_pkg
  have hraw_of : ∀ e ∈ (cleanup unw lns).imps, e ∈ rawImps false lns := by
    intro e he
    have := (mem_foldl_appendUniq (rawImps false lns) [] e).mp (himps ▸ he)
    simpa using this
  have himp_zero_pkg : ((cleanup unw lns).imps.map (fun e => e ++ ['\n'])).countP
      (fun x => goHasPref x (chars "package")) = 0 := by
    rw [List.countP_eq_zero]
    intro x hx
    rw [List.mem_map] at hx
    obtain ⟨e, he, rfl⟩ := hx
    simp [goHasPref_snoc_nl_neg e (chars "package") (by decide) (hent e (hraw_of e he)).1]
  have himp_zero_imp : ((cleanup unw lns).imps.map (fun e => e ++ ['\n'])).countP
      (fun x => goHasPref x (chars "import")) = 0 := by
    rw [List.countP_eq_zero]
    intro x hx
    rw [List.mem_map] at hx
    obtain ⟨e, he, rfl⟩ := hx
    simp [goHasPref_snoc_nl_neg e (chars "import") (by decide) (hent e (hraw_of e he)).2]
  have hout_pkg : (cleanup unw lns).outLines.countP
      (fun x => goHasPref x (chars "package")) = 0 := by
    rw [List.countP_eq_zero]
    intro x hx
    rw [hout] at hx
    obtain ⟨l, hxe, hl1, hl2⟩ := survivors_not_pkg_imp unw false lns x hx
    subst hxe
    intro hcon
    have hc2 := goHasPref_line_elim l (chars "package") (by decide) (by simpa using hcon)
    rw [hl1] at hc2
    exact Bool.false_ne_true hc2
  have hout_imp : (cleanup unw lns).outLines.countP
      (fun x => goHasPref x (chars "import")) = 0 := by
    rw [List.countP_eq_zero]
    intro x hx
    rw [hout] at hx
    obtain ⟨l, hxe, hl1, hl2⟩ := survivors_not_pkg_imp unw false lns x hx
    subst hxe
    intro hcon
    have hc2 := goHasPref_line_elim l (chars "import") (by decide) (by simpa using hcon)
    rw [hl2] at hc2
    exact Bool.false_ne_true hc2
  refine ⟨?_, ?_, hpl, himps, hnodup, hsub, rfl⟩
  · have hh1 : goHasPref headerS (chars "package") = false := by decide
    have hh2 : goHasPref (chars "import (\n") (chars "package") = false := by decide
    have hh3 : goHasPref (chars ")\n") (chars "package") = false := by decide
    simp [assemble, List.countP_append, List.countP_cons, hpl, hlp_pkg, hh1, hh2, hh3,
      himp_zero_pkg, hout_pkg]
  · have hh1 : goHasPref headerS (chars "import") = false := by decide
    have hh2 : goHasPref (chars "import (\n") (chars "import") = true := by decide
    have hh3 : goHasPref (chars ")\n") (chars "import") = false := by decide
    simp [assemble, List.countP_append, List.countP_cons, hpl, hlp_imp, hh1, hh2, hh3,
      himp_zero_imp, hout_imp]

/-- C2 witness: two specializations' worth of lines with a package clause,
one block import, and one single-line import. -/
theorem c2_merge_shape_wit :
    pkgScan false [chars "package main", chars "import (", chars "\t\"fmt\"", chars ")",
        chars "import \"os\"", chars "x"] = some (chars "package main")
    ∧ (∀ e ∈ rawImps false [chars "package main", chars "import (", chars "\t\"fmt\"",
        chars ")", chars "import \"os\"", chars "x"],
      goHasPref e (chars "package") = false ∧ goHasPref e (chars "import") = false)
    ∧ ((assemble (cleanup unwantedBase [chars "package main", chars "import (",
          chars "\t\"fmt\"", chars ")", chars "import \"os\"", chars "x"])).countP
        (fun x => goHasPref x (chars "package")) = 1
      ∧ (assemble (cleanup unwantedBase [chars "package main", chars "import (",
          chars "\t\"fmt\"", chars ")", chars "import \"os\"", chars "x"])).countP
        (fun x => goHasPref x (chars "import")) = 1
      ∧ (cleanup unwantedBase [chars "package main", chars "import (", chars "\t\"fmt\"",
          chars ")", chars "import \"os\"", chars "x"]).pkgLine = line (chars "package main")
      ∧ (cleanup unwantedBase [chars "package main", chars "import (", chars "\t\"fmt\"",
          chars ")", chars "import \"os\"", chars "x"]).imps
        = (rawImps false [chars "package main", chars "import (", chars "\t\"fmt\"",
            chars ")", chars "import \"os\"", chars "x"]).foldl appendUniq []
      ∧ (cleanup unwantedBase [chars "package main", chars "import (", chars "\t\"fmt\"",
          chars ")", chars "import \"os\"", chars "x"]).imps.Nodup
      ∧ List.Sublist (cleanup unwantedBase [chars "package main", chars "import (",
          chars "\t\"fmt\"", chars ")", chars "import \"os\"", chars "x"]).outLines
          ([chars "package main", chars "import (", chars "\t\"fmt\"", chars ")",
            chars "import \"os\"", chars "x"].map line)
      ∧ (assemble (cleanup unwantedBase [chars "package main", chars "import (",
          chars "\t\"fmt\"", chars ")", chars "import \"os\"", chars "x"])).head?
        = some headerS) :=
  ⟨by decide, by decide,
    c2_merge_shape [chars "package main", chars "import (", chars "\t\"fmt\"", chars ")",
        chars "import \"os\"", chars "x"] unwantedBase (chars "package main")
      (by decide) (by decide)⟩

/-! ### C3: word-boundary behavior on `TypeScript` -/

/-- C3 (counterexample): the claim says that with the binding
`Type ↦ Foo` the identifier `TypeScript` is left unchanged on any line
containing it.  It is not: on the template line `"TypeScript Type"` the
occurrence of `Type` inside `TypeScript` is a partial match and is rewritten
by wordification, so the output is `"FooScript Foo "` and no occurrence of
`TypeScript` survives. -/
theorem c3_typescript_changed_cex :
    generateSpecific 10 [(chars "Type", chars "Foo")]
        ⟨[chars "package main", chars "TypeScript Type"], []⟩
      = .ok (chars "package main\nFooScript Foo \n")
    ∧ goContains (chars "package main\nFooScript Foo \n") (chars "TypeScript") = false :=
  ⟨rfl, by decide⟩

/-- C3 (amended): with the binding `Type ↦ Foo`, the identifier
`TypeScript` is rewritten by the wordification rule to `FooScript` (not
left unchanged, but also not a blind substring replacement: with the
lowercase binding `Type ↦ foo` the fragment is re-cased to the original
identifier's exported casing, giving `FooScript` rather than `fooScript`),
while a standalone `Type` token is fully replaced by the concrete type. -/
theorem c3_wordboundary_amended :
    generateSpecific 10 [(chars "Type", chars "Foo")] ⟨[chars "TypeScript Type"], []⟩
      = .ok (chars "FooScript Foo \n")
    ∧ generateSpecific 10 [(chars "Type", chars "foo")] ⟨[chars "TypeScript Type"], []⟩
      = .ok (chars "FooScript foo \n") :=
  ⟨rfl, rfl⟩

/-! ### C4: exact-versus-partial classification of occurrences -/

/-- C4 (counterexample): the claim says every occurrence is classified by
the characters immediately before and after it.  On the word
`map[Type]Type` with the binding `Type ↦ Foo:pkg.Foo`, the first occurrence
is correctly classified exact (giving `map[pkg.Foo]Type`), but the
remaining occurrence — whose real neighbors `]` and end-of-word make the
spec's rule classify it exact, with replacement `pkg.Foo` — is tested at an
index relative to the previous match and is misclassified partial, so the
loop produces `map[pkg.Foo]Foo` and not `map[pkg.Foo]pkg.Foo`. -/
theorem c4_relative_index_cex :
    substWordLoop (chars "Type") (chars "Foo:pkg.Foo") 10 0 (chars "map[Type]Type")
      = chars "map[pkg.Foo]Foo"
    ∧ neighborRule (chars "map[pkg.Foo]Type") (chars "Type") 12 = false
    ∧ chars "map[pkg.Foo]Foo" ≠ chars "map[pkg.Foo]pkg.Foo" :=
  ⟨rfl, by decide, by decide⟩

/-- C4 (amended): the occurrence found when the loop's index is 0 — in
particular the first occurrence in each word — is at its absolute position,
and is classified exactly by the spec's neighbor rule: partial (wordified,
cased by the surrounding word) when a neighboring character is alphanumeric
or underscore, exact (replaced by `typify`) otherwise; occurrences found at
a nonzero relative index need not follow the rule. -/
theorem c4_first_occurrence_classified (t spec word : GoStr) (fuel j : Nat)
    (h : goIndex word t = some j) :
    substWordLoop t spec (fuel + 1) 0 word =
      substWordLoop t spec fuel j
        (goReplace1 word t
          (if neighborRule word t j then wordify spec (headIsUpper word) else typify spec)) :=
  substWordLoop_first_step t spec word fuel j h

/-- C4 witness: the amended theorem applied to the word `aType`, where the
occurrence of `Type` at index 1 has the alphanumeric left neighbor `a`. -/
theorem c4_first_occurrence_classified_wit :
    goIndex (chars "aType") (chars "Type") = some 1
    ∧ substWordLoop (chars "Type") (chars "Foo") 1 0 (chars "aType") =
        substWordLoop (chars "Type") (chars "Foo") 0 1
          (goReplace1 (chars "aType") (chars "Type")
            (if neighborRule (chars "aType") (chars "Type") 1 then
              wordify (chars "Foo") (headIsUpper (chars "aType"))
            else typify (chars "Foo"))) :=
  ⟨by decide, c4_first_occurrence_classified (chars "Type") (chars "Foo") (chars "aType") 0 1
    (by decide)⟩

/-! ### C5: the replacement used for a partial match -/

/-- C5 (counterexample): the claim says a partial match is replaced by the
label stripped of decoration with its first letter's case forced to the
surrounding identifier's case, lowercase for an unexported identifier,
regardless of the binding's casing.  The source does no lowercasing: with
the binding `secret ↦ Foo` the unexported identifier `secretInspect`
becomes `FooInspect`, not the `fooInspect` the rule dictates, because
`wordify` returns an unlabeled spec unchanged when the identifier is
unexported (and returns a label entirely verbatim). -/
theorem c5_casing_cex :
    generateSpecific 10 [(chars "secret", chars "Foo")] ⟨[chars "secretInspect secret"], []⟩
      = .ok (chars "FooInspect Foo \n")
    ∧ wordify (chars "Foo") false = chars "Foo"
    ∧ claimWordify (chars "Foo") false = chars "foo"
    ∧ wordify (chars "myint:int") true = chars "myint"
    ∧ claimWordify (chars "myint:int") true = chars "Myint"
    ∧ chars "Foo" ≠ chars "foo" ∧ chars "myint" ≠ chars "Myint" :=
  ⟨rfl, rfl, rfl, rfl, rfl, by decide, by decide⟩

/-- C5 (amended): a partial match is replaced by
`wordify spec (headIsUpper word)`, whose casing signal is the first letter
of the current word after skipping leading `*`/`&`; and `wordify` returns a
labeled spec's label verbatim, and an unlabeled spec stripped of decoration,
with the first letter uppercased when the identifier is exported and left
with the binding's own casing when it is not. -/
theorem c5_partial_replacement_rules (t spec word s : GoStr) (fuel j : Nat) (e : Bool)
    (r : GoStr) :
    (goIndex word t = some j → neighborRule word t j = true →
      substWordLoop t spec (fuel + 1) 0 word =
        substWordLoop t spec fuel j (goReplace1 word t (wordify spec (headIsUpper word))))
    ∧ (wordifyO s e = some r →
      (goContains s [':'] = true → r = claimLabel s)
      ∧ (goContains s [':'] = false → r = (if e then upFirst (claimStrip s) else claimStrip s))) := by
  constructor
  · intro h hr
    rw [substWordLoop_first_step t spec word fuel j h, hr, if_pos rfl]
  · intro hw
    unfold wordifyO at hw
    unfold goContains claimLabel
    cases hidx : goIndex s [':'] with
    | some i =>
      rw [hidx] at hw
      simp only [Option.some.injEq] at hw
      subst hw
      exact ⟨fun _ => rfl, fun hc => by simp [hidx] at hc⟩
    | none =>
      rw [hidx] at hw
      refine ⟨fun hc => by simp [hidx] at hc, fun _ => ?_⟩
      rw [← wordifyCore_eq_claimStrip]
      cases e with
      | false =>
        simp only [Bool.not_false, if_true, Option.some.injEq] at hw
        simp [← hw]
      | true =>
        simp only [Bool.not_true, if_false] at hw
        cases hc : wordifyCore s with
        | nil => rw [hc] at hw; exact absurd hw (by simp)
        | cons c rest =>
          rw [hc] at hw
          simp at hw
          simp [← hw, upFirst]

/-- C5 witness: the amended theorem at the word `aType` with binding
`Type ↦ Foo` (partial match, wordified), and at the labeled spec `x:y` and
the unlabeled spec `Foo` under both casing signals. -/
theorem c5_partial_replacement_rules_wit :
    (goIndex (chars "aType") (chars "Type") = some 1
      ∧ neighborRule (chars "aType") (chars "Type") 1 = true
      ∧ substWordLoop (chars "Type") (chars "Foo") 1 0 (chars "aType") =
          substWordLoop (chars "Type") (chars "Foo") 0 1
            (goReplace1 (chars "aType") (chars "Type")
              (wordify (chars "Foo") (headIsUpper (chars "aType")))))
    ∧ (wordifyO (chars "x:y") true = some (chars "x")
      ∧ goContains (chars "x:y") [':'] = true
      ∧ chars "x" = claimLabel (chars "x:y")) :=
  ⟨⟨by decide, by decide,
    (c5_partial_replacement_rules (chars "Type") (chars "Foo") (chars "aType") (chars "x") 0 1
      true (chars "x")).1 (by decide) (by decide)⟩,
   ⟨by decide, by decide,
    ((c5_partial_replacement_rules (chars "Type") (chars "Foo") (chars "aType") (chars "x:y") 0 1
      true (chars "x")).2 (by decide)).1 (by decide)⟩⟩

/-! ### C6: the Pair concrete scenario -/

/-- C6: binding `FirstType ↦ Person:person.Person` and
`SecondType ↦ Dog:pet.Dog` on a template whose `Pair` struct uses both
placeholders yields the type `PairPersonDog` with field types
`person.Person` and `pet.Dog` (labels drive the generated identifier, the
part after `:` drives the type positions) — under either enumeration order
of the binding set, and with no placeholder name surviving. -/
theorem c6_pair_person_dog :
    generateSpecific 20
        [(chars "FirstType", chars "Person:person.Person"), (chars "SecondType", chars "Dog:pet.Dog")]
        ⟨[chars "package pair", chars "type FirstType generic.Type",
          chars "type SecondType generic.Type", chars "type PairFirstTypeSecondType struct \x7b",
          chars "Left FirstType", chars "Right SecondType", chars "\x7d"],
         [⟨chars "FirstType", some (chars "generic")⟩, ⟨chars "SecondType", some (chars "generic")⟩,
          ⟨chars "PairFirstTypeSecondType", none⟩]⟩
      = .ok (chars "package pair\ntype PairPersonDog struct \x7b \nLeft person.Person \nRight pet.Dog \n\x7d\n")
    ∧ generateSpecific 20
        [(chars "SecondType", chars "Dog:pet.Dog"), (chars "FirstType", chars "Person:person.Person")]
        ⟨[chars "package pair", chars "type FirstType generic.Type",
          chars "type SecondType generic.Type", chars "type PairFirstTypeSecondType struct \x7b",
          chars "Left FirstType", chars "Right SecondType", chars "\x7d"],
         [⟨chars "FirstType", some (chars "generic")⟩, ⟨chars "SecondType", some (chars "generic")⟩,
          ⟨chars "PairFirstTypeSecondType", none⟩]⟩
      = .ok (chars "package pair\ntype PairPersonDog struct \x7b \nLeft person.Person \nRight pet.Dog \n\x7d\n")
    ∧ goContains (chars "package pair\ntype PairPersonDog struct \x7b \nLeft person.Person \nRight pet.Dog \n\x7d\n")
        (chars "type PairPersonDog struct") = true
    ∧ goContains (chars "package pair\ntype PairPersonDog struct \x7b \nLeft person.Person \nRight pet.Dog \n\x7d\n")
        (chars "Left person.Person") = true
    ∧ goContains (chars "package pair\ntype PairPersonDog struct \x7b \nLeft person.Person \nRight pet.Dog \n\x7d\n")
        (chars "Right pet.Dog") = true
    ∧ goContains (chars "package pair\ntype PairPersonDog struct \x7b \nLeft person.Person \nRight pet.Dog \n\x7d\n")
        (chars "FirstType") = false
    ∧ goContains (chars "package pair\ntype PairPersonDog struct \x7b \nLeft person.Person \nRight pet.Dog \n\x7d\n")
        (chars "SecondType") = false :=
  ⟨rfl, rfl, by decide, by decide, by decide, by decide, by decide⟩

/-! ### C7: interface-block buffering -/

/-- C7 (counterexample): the claim says an interface block none of whose
lines referenced a placeholder type is emitted verbatim.  It is not: on the
three-line block `type I interface {` / `\tM()` / `}` (no generic reference,
empty binding set) the flush concatenates the buffered lines with no newline
separators, and the opening line appears twice, because it is stored when
the opening pattern matches and appended again by the buffering branch of
the same iteration. -/
theorem c7_iface_not_verbatim_cex :
    generateSpecific 5 [] ⟨[chars "type I interface \x7b", chars "\tM()", chars "\x7d"], []⟩
      = .ok (chars "type I interface \x7btype I interface \x7b\tM()\x7d")
    ∧ goContains (chars "type I interface \x7btype I interface \x7b\tM()\x7d")
        (chars "\x7btype I interface") = true
    ∧ chars "type I interface \x7btype I interface \x7b\tM()\x7d"
        ≠ chars "type I interface \x7b\n\tM()\n\x7d\n" :=
  ⟨rfl, by decide, by decide⟩

/-- C7 (amended): at a closing line while a block is buffered, the whole
buffered block (which holds the opening line twice: as stored at the
opening match and as re-appended after substitution) together with the
closing line is written raw — concatenated without newline separators —
when no buffered line mentioned `generic.Type`/`generic.Number`, and is
discarded entirely (the buffer contributes nothing to the output) when one
did; the buffer and the flag are reset either way and a held comment is
not flushed by this step. -/
theorem c7_flush_or_discard (fuel : Nat) (ts : List (GoStr × GoStr)) (st : SpecState)
    (l : GoStr) (hb : ifaceBeginMatch l = false) (he : ifaceEndMatch l = true)
    (hne : st.ifaceLines ≠ []) :
    processLine fuel ts st l =
      { buf := if st.containsType then st.buf else st.buf ++ joinAll (st.ifaceLines ++ [l])
        comment := st.comment
        ifaceLines := []
        containsType := false } := by
  have hemp : st.ifaceLines.isEmpty = false := by
    cases h : st.ifaceLines with
    | nil => exact absurd h hne
    | cons a l2 => rfl
  unfold processLine
  rw [hb]
  simp [he, hemp]

/-- C7 witness: the amended theorem at a one-line buffer whose block did
mention a generic type, so the closing line discards it. -/
theorem c7_flush_or_discard_wit :
    processLine 0 [] ⟨[], [], [chars "M()"], true⟩ (chars "\x7d") =
      { buf := [], comment := [], ifaceLines := [], containsType := false } :=
  c7_flush_or_discard 0 [] ⟨[], [], [chars "M()"], true⟩ (chars "\x7d")
    (by decide) (by decide) (by simp)

/-! ### C8: comment deferral -/

/-- C8 (counterexample): the claim says a held comment is emitted just
before the next emitted line.  When the line after the held comment closes
a buffered interface block that is flushed, the block is written first and
the comment after it: on the template `type I interface {` / `// c` / `}` /
`x`, the closing brace is emitted at index 36 of the output while the
comment `// c` — held before that brace in the input — appears only at
index 37, after it. -/
theorem c8_comment_after_flush_cex :
    generateSpecific 5 []
        ⟨[chars "type I interface \x7b", chars "// c", chars "\x7d", chars "x"], []⟩
      = .ok (chars "type I interface \x7btype I interface \x7b\x7d// c\nx\n")
    ∧ goIndex (chars "type I interface \x7btype I interface \x7b\x7d// c\nx\n") (chars "\x7d")
        = some 36
    ∧ goIndex (chars "type I interface \x7btype I interface \x7b\x7d// c\nx\n") (chars "// c")
        = some 37 :=
  ⟨rfl, by decide, by decide⟩

/-- C8 (amended): outside interface buffering, a held comment is discarded
— never emitted — when the next line mentions `generic.Type`or
`generic.Number` (the elided pure-generic declarations), and is emitted
immediately before the next line written through the normal path; lines
flushed from an interface buffer are written without flushing the held
comment first, so such a flush can precede the comment in the output. -/
theorem c8_comment_defer (fuel : Nat) (ts : List (GoStr × GoStr)) (st : SpecState)
    (l : GoStr) (hb : ifaceBeginMatch l = false) (hni : st.ifaceLines = [])
    (hc : st.comment ≠ []) :
    (lineHasGeneric l = true → processLine fuel ts st l = { st with comment := [] })
    ∧ (lineHasGeneric l = false → goHasPref (substAll fuel ts l) (chars "//") = false →
        processLine fuel ts st l =
          { buf := st.buf ++ line st.comment ++ line (substAll fuel ts l)
            comment := []
            ifaceLines := []
            containsType := st.containsType }) := by
  obtain ⟨b, c, il, ct⟩ := st
  simp only at hni hc
  subst hni
  have hcemp : (c : GoStr).isEmpty = false := by
    cases c with
    | nil => exact absurd rfl hc
    | cons a l2 => rfl
  constructor
  · intro hg
    unfold processLine
    rw [hb]
    simp [hg]
  · intro hg hpre
    unfold processLine
    rw [hb]
    simp [hg, hpre, hcemp, List.append_assoc]

/-- C8 witness: the amended theorem with the held comment `// doc`, applied
to a generic declaration line (comment discarded) and to a plain line
(comment emitted immediately before it). -/
theorem c8_comment_defer_wit :
    (lineHasGeneric (chars "type T generic.Type") = true
      ∧ processLine 0 [] ⟨[], chars "// doc", [], false⟩ (chars "type T generic.Type")
          = { buf := [], comment := [], ifaceLines := [], containsType := false })
    ∧ (lineHasGeneric (chars "x") = false
      ∧ processLine 0 [] ⟨[], chars "// doc", [], false⟩ (chars "x")
          = { buf := line (chars "// doc") ++ line (chars "x")
              comment := [], ifaceLines := [], containsType := false }) :=
  ⟨⟨by decide,
    (c8_comment_defer 0 [] ⟨[], chars "// doc", [], false⟩ (chars "type T generic.Type")
      (by decide) rfl (by decide)).1 (by decide)⟩,
   ⟨by decide,
    (c8_comment_defer 0 [] ⟨[], chars "// doc", [], false⟩ (chars "x")
      (by decide) rfl (by decide)).2 (by decide) (by decide)⟩⟩

/-! ### C9: dependence on the enumeration order of a binding set -/

/-- C9 (counterexample): the claim says the result does not depend on the
iteration order over the placeholder-to-spec map of a binding set.  With
the set `{Type ↦ A, TypeX ↦ B}` on a template containing `TypeX`, one
enumeration order rewrites `TypeX` through the binding `Type` (a partial
match giving `AX`) and the other through the binding `TypeX` (an exact
match giving `B`), so the two generation calls return different bytes. -/
theorem c9_map_order_cex :
    Generics 10 [] ⟨[chars "package main", chars "TypeX"], []⟩
        [[(chars "Type", chars "A"), (chars "TypeX", chars "B")]] [] []
      = .ok (chars "\n\n// This file was automatically generated by genny.\n// Any changes will be lost if this file is regenerated.\n// see https://github.com/mauricelam/genny\n\npackage main\nimport (\n)\nAX \n")
    ∧ Generics 10 [] ⟨[chars "package main", chars "TypeX"], []⟩
        [[(chars "TypeX", chars "B"), (chars "Type", chars "A")]] [] []
      = .ok (chars "\n\n// This file was automatically generated by genny.\n// Any changes will be lost if this file is regenerated.\n// see https://github.com/mauricelam/genny\n\npackage main\nimport (\n)\nB \n")
    ∧ chars "\n\n// This file was automatically generated by genny.\n// Any changes will be lost if this file is regenerated.\n// see https://github.com/mauricelam/genny\n\npackage main\nimport (\n)\nAX \n"
      ≠ chars "\n\n// This file was automatically generated by genny.\n// Any changes will be lost if this file is regenerated.\n// see https://github.com/mauricelam/genny\n\npackage main\nimport (\n)\nB \n" :=
  ⟨rfl, rfl, by decide⟩

/-- C9 (amended): the generation call is a pure function of the template
and the *ordered* enumeration of each binding set; as a function of the
unordered map it is not well defined — there are a binding set, two
permutations of it, and a template for which the outputs differ. -/
theorem c9_order_dependence :
    ∃ (ts1 ts2 : List (GoStr × GoStr)) (tpl : ParsedTemplate),
      ts1.Perm ts2
      ∧ Generics 10 [] tpl [ts1] [] [] ≠ Generics 10 [] tpl [ts2] [] [] := by
  refine ⟨[(chars "Type", chars "A"), (chars "TypeX", chars "B")],
    [(chars "TypeX", chars "B"), (chars "Type", chars "A")],
    ⟨[chars "package main", chars "TypeX"], []⟩, List.Perm.swap _ _ _, ?_⟩
  intro h
  have h1 : Generics 10 [] ⟨[chars "package main", chars "TypeX"], []⟩
      [[(chars "Type", chars "A"), (chars "TypeX", chars "B")]] [] []
      = .ok (chars "\n\n// This file was automatically generated by genny.\n// Any changes will be lost if this file is regenerated.\n// see https://github.com/mauricelam/genny\n\npackage main\nimport (\n)\nAX \n") := rfl
  have h2 : Generics 10 [] ⟨[chars "package main", chars "TypeX"], []⟩
      [[(chars "TypeX", chars "B"), (chars "Type", chars "A")]] [] []
      = .ok (chars "\n\n// This file was automatically generated by genny.\n// Any changes will be lost if this file is regenerated.\n// see https://github.com/mauricelam/genny\n\npackage main\nimport (\n)\nB \n") := rfl
  rw [h1, h2] at h
  exact absurd (Except.ok.inj h) (by decide)

/-! ### C10: domain of safety of `wordify` -/

/-- C10 (counterexample): the claim says an unlabeled spec that strips to
the empty string makes `wordify` index position 0 of an empty string.  With
`exported = false` the source returns the stripped spec before reaching
that index, so the empty spec yields the empty string without fault; the
unguarded index is reached only when `exported = true`. -/
theorem c10_unexported_empty_cex :
    wordifyO [] false = some [] ∧ wordifyO [] true = none ∧ wordifyCore [] = [] :=
  ⟨rfl, rfl, rfl⟩

/-- C10 (amended): for an unlabeled spec, `wordify` is safe whenever the
spec still has a character after stripping trailing `{`/`}`, leading
`*`/`&` and all `.`; a spec that strips to empty faults on the unguarded
index exactly when `exported = true`, and is returned (empty) unharmed when
`exported = false`. -/
theorem c10_wordify_safety (s : GoStr) (e : Bool) (hnc : goContains s [':'] = false) :
    (wordifyCore s ≠ [] → ∃ r, wordifyO s e = some r)
    ∧ (wordifyCore s = [] → e = true → wordifyO s e = none)
    ∧ (wordifyCore s = [] → e = false → wordifyO s e = some []) := by
  have hidx : goIndex s [':'] = none := by
    unfold goContains at hnc
    cases h : goIndex s [':'] with
    | none => rfl
    | some i => rw [h] at hnc; simp at hnc
  unfold wordifyO
  rw [hidx]
  refine ⟨?_, ?_, ?_⟩
  · intro hne
    cases e with
    | false => exact ⟨wordifyCore s, rfl⟩
    | true =>
      cases hcc : wordifyCore s with
      | nil => exact absurd hcc hne
      | cons c rest => exact ⟨c.toUpper :: rest, by simp [hcc]⟩
  · intro hcc he; subst he; simp [hcc]
  · intro hcc he; subst he; simp [hcc]

/-- C10 witness: the amended theorem at the decorated but non-degenerate
spec `*person.Person{}` with `exported = true`. -/
theorem c10_wordify_safety_wit :
    goContains (chars "*person.Person\x7b\x7d") [':'] = false
    ∧ wordifyCore (chars "*person.Person\x7b\x7d") ≠ []
    ∧ ∃ r, wordifyO (chars "*person.Person\x7b\x7d") true = some r :=
  ⟨by decide, by decide,
    (c10_wordify_safety (chars "*person.Person\x7b\x7d") true (by decide)).1 (by decide)⟩

end Genny
